import Mathlib

/-
Formal model of the bill-splitting backend core: the in-memory session
store (`app/services/session_manager.py`), the item-split engine and the
assignment routes (`app/routes/sessions.py`), and the receipt validator
and receipt conversion (`app/services/receipt_parser.py`,
`app/routes/receipts.py`).

Modelling conventions:
- Python dicts become association lists `List (String × α)` preserving
  insertion order; `dget`/`dset`/`dmodify`/`derase` mirror `d.get(k)`,
  `d[k] = v`, in-place mutation of a stored object, and `del d[k]`.
- Monetary values are exact rationals `ℚ` (the Python floats are
  abstracted to exact arithmetic); timestamps are `ℕ` ticks supplied
  explicitly where the Python calls `datetime.now()`.
- `random.choices`/`uuid.uuid4` nondeterminism is passed in explicitly:
  a candidate-code list (the finite prefix the retry loop consumes) and
  fresh-id arguments.
- Python truthiness `x or d` on optional numbers is `pyOr`; `if tip:` is
  addition of `pyOr tip 0`.
- The f-string issue/warning messages of `_validate_receipt` are
  modelled structurally: each constructor carries exactly the numbers
  interpolated into the corresponding Python message.
-/

/-! ## Association-list model of Python dicts -/
/-- `d.get(k)`: first binding of `k`, if any. -/
def dget {α : Type} : List (String × α) → String → Option α
  | [], _ => none
  | (k', v) :: rest, k => if k' = k then some v else dget rest k

/-- `d[k] = v`: replace the binding in place if the key exists, else append. -/
def dset {α : Type} : List (String × α) → String → α → List (String × α)
  | [], k, v => [(k, v)]
  | (k', v') :: rest, k, v =>
    if k' = k then (k, v) :: rest else (k', v') :: dset rest k v

/-- In-place mutation of the object stored under `k` (no-op when absent). -/
def dmodify {α : Type} : List (String × α) → String → (α → α) → List (String × α)
  | [], _, _ => []
  | (k', v) :: rest, k, f =>
    if k' = k then (k', f v) :: rest else (k', v) :: dmodify rest k f

/-- Remove the binding of `k` (no-op when absent). -/
def derase {α : Type} : List (String × α) → String → List (String × α)
  | [], _ => []
  | (k', v) :: rest, k => if k' = k then rest else (k', v) :: derase rest k

/-- `del d[k]`: `none` models the `KeyError` raised on a missing key. -/
def ddel {α : Type} (d : List (String × α)) (k : String) : Option (List (String × α)) :=
  if (dget d k).isSome then some (derase d k) else none

/-! ## Entity records (app/models/schemas.py) -/
inductive PaymentStatus where
  | pending | paid | settled
  deriving DecidableEq, Repr

inductive SessionStatus where
  | active | completed | cancelled
  deriving DecidableEq, Repr

structure Participant where
  id : String
  sessionId : String
  userId : Option String
  guestName : Option String
  amountOwed : ℚ
  amountPaid : ℚ
  paymentStatus : PaymentStatus
  joinedAt : ℕ
  deriving DecidableEq, Repr

structure BillItem where
  id : String
  sessionId : String
  name : String
  price : ℚ
  quantity : ℤ
  category : Option String
  lineNumber : ℤ
  deriving DecidableEq, Repr

structure ItemAssignment where
  id : String
  itemId : String
  participantId : String
  splitPercentage : ℚ
  amount : ℚ
  deriving DecidableEq, Repr

structure Session where
  id : String
  sessionCode : String
  restaurantName : Option String
  receiptImageUrl : Option String
  subtotal : ℚ
  tax : ℚ
  tip : ℚ
  total : ℚ
  createdBy : Option String
  status : SessionStatus
  createdAt : ℕ
  updatedAt : ℕ
  items : List BillItem
  participants : List Participant
  assignments : List ItemAssignment
  deriving DecidableEq, Repr

structure SessionCreate where
  restaurantName : Option String
  receiptImageUrl : Option String
  subtotal : ℚ
  tax : ℚ
  tip : ℚ
  total : ℚ
  deriving DecidableEq, Repr

structure ParticipantCreate where
  userId : Option String
  guestName : Option String
  amountOwed : ℚ
  amountPaid : ℚ
  paymentStatus : PaymentStatus
  deriving DecidableEq, Repr

structure BillItemCreate where
  name : String
  price : ℚ
  quantity : ℤ
  category : Option String
  lineNumber : ℤ
  deriving DecidableEq, Repr

structure ItemAssignmentCreate where
  itemId : String
  participantId : String
  splitPercentage : ℚ
  amount : ℚ
  deriving DecidableEq, Repr

structure AssignItemRequest where
  itemId : String
  participantIds : List String
  splitEqually : Bool
  deriving DecidableEq, Repr

/-! ## Receipt validator (receipt_parser.py, `_validate_receipt`) -/
/-- Raw parser output (`receipt_data` dict): absent/null JSON fields are `none`. -/
structure RItem where
  name : Option String
  price : Option ℚ
  quantity : Option ℤ
  deriving DecidableEq, Repr

structure ReceiptData where
  restaurant_name : Option String
  items : List RItem
  subtotal : Option ℚ
  tax : Option ℚ
  tip : Option ℚ
  total : Option ℚ
  confidence : Option String
  deriving DecidableEq, Repr

/-- Python `x or d` on an optional number: `None` and `0` are falsy. -/
def pyOr {α : Type} [Zero α] [DecidableEq α] (o : Option α) (d : α) : α :=
  match o with
  | none => d
  | some x => if x = 0 then d else x

/-- One entry of the `issues` list; `mathMismatch` carries the numbers of the
Python message `"Math doesn't add up: {subtotal} + {tax} + {tip or 0} =
{calculated}, but total is {total} (difference: ${difference:.2f})"`. -/
inductive ValIssue where
  | noItems
  | mathMismatch (subtotal tax tip calculated total difference : ℚ)
  deriving DecidableEq, Repr

/-- One entry of the `warnings` list; `itemsSumMismatch` carries the numbers of
the Python message `"Items sum ({itemsSum}) doesn't match subtotal ({subtotal})..."`. -/
inductive ValWarn where
  | noTotal
  | itemsSumMismatch (itemsSum subtotal : ℚ)
  deriving DecidableEq, Repr

structure Validation where
  is_valid : Bool
  issues : List ValIssue
  warnings : List ValWarn
  deriving DecidableEq, Repr

/-- `sum((item.get('price') or 0) * (item.get('quantity') or 1) for item in items)` -/
def itemsSum (items : List RItem) : ℚ :=
  (items.map (fun it => pyOr it.price 0 * ((pyOr it.quantity 1 : ℤ) : ℚ))).sum

/-- `_validate_receipt`, with the checks in source order. -/
def _validate_receipt (r : ReceiptData) : Validation :=
  let issues1 : List ValIssue := if r.items.isEmpty then [ValIssue.noItems] else []
  let warnings1 : List ValWarn := if r.total.isNone then [ValWarn.noTotal] else []
  let issues2 : List ValIssue :=
    match r.subtotal, r.tax, r.total with
    | some st, some tx, some tot =>
      let calcTotal := st + tx + pyOr r.tip 0
      let diff := |calcTotal - tot|
      if diff > 2/100 then
        issues1 ++ [ValIssue.mathMismatch st tx (pyOr r.tip 0) calcTotal tot diff]
      else issues1
    | _, _, _ => issues1
  let warnings2 : List ValWarn :=
    match r.subtotal with
    | some st =>
      if r.items.isEmpty then warnings1
      else
        let isum := itemsSum r.items
        if |isum - st| > 2/100 then warnings1 ++ [ValWarn.itemsSumMismatch isum st]
        else warnings1
    | none => warnings1
  { is_valid := issues2.isEmpty, issues := issues2, warnings := warnings2 }

def ValIssue.isMath : ValIssue → Bool
  | .mathMismatch .. => true
  | _ => false

def ValWarn.isSumWarn : ValWarn → Bool
  | .itemsSumMismatch .. => true
  | _ => false

/-! ## Receipt conversion (routes/receipts.py, scan_receipt / get_receipt) -/
/-- The `Receipt` pydantic response; the routes always fill the monetary fields
with `... or 0.0`, so they are plain rationals here. -/
structure Receipt where
  id : String
  restaurantName : Option String
  items : List BillItemCreate
  subtotal : ℚ
  tax : ℚ
  tip : ℚ
  total : ℚ
  confidence : Option String
  deriving DecidableEq, Repr

/-- The stored-receipt → `Receipt` conversion performed identically in
`scan_receipt` and `get_receipt`: null/falsy money becomes `0.0`, null/falsy
item price `0.0`, null/falsy quantity `1`, `lineNumber = idx + 1`. -/
def build_receipt (rid : String) (d : ReceiptData) : Receipt :=
  { id := rid
    restaurantName := d.restaurant_name
    items := d.items.mapIdx (fun idx it =>
      { name := it.name.getD "Unknown Item"
        price := pyOr it.price 0
        quantity := pyOr it.quantity 1
        category := none
        lineNumber := (idx : ℤ) + 1 })
    subtotal := pyOr d.subtotal 0
    tax := pyOr d.tax 0
    tip := pyOr d.tip 0
    total := pyOr d.total 0
    confidence := d.confidence }

/-! ## Session manager state (session_manager.py) -/
/-- The `SessionManager` dictionaries. The `receipts` dict additionally stores
raw uploaded image bytes in Python; only parsed receipt data is modelled. -/
structure SessionManager where
  sessions : List (String × Session)
  sessions_by_code : List (String × String)
  receipts : List (String × ReceiptData)
  deriving DecidableEq, Repr

def emptyMgr : SessionManager := ⟨[], [], []⟩

/-- Alphabet of `string.ascii_uppercase + string.digits`. -/
def codeAlphabet : List Char := "ABCDEFGHIJKLMNOPQRSTUVWXYZ0123456789".toList

/-- A value `random.choices(codeAlphabet, k=6)` can produce. -/
def validCode (c : String) : Prop :=
  c.length = 6 ∧ ∀ ch ∈ c.toList, ch ∈ codeAlphabet

instance (c : String) : Decidable (validCode c) := by
  unfold validCode; infer_instance

/-- `_generate_session_code`: the retry loop consumes the random stream
`candidates` and returns the first code not currently mapped to a live
session; `none` models the loop never terminating on this finite prefix. -/
def _generate_session_code (mgr : SessionManager) (candidates : List String) :
    Option String :=
  candidates.find? (fun c => (dget mgr.sessions_by_code c).isNone)

/-- `create_session`: `sid` is the fresh uuid, `now` the clock reading. -/
def create_session (mgr : SessionManager) (sid : String) (candidates : List String)
    (now : ℕ) (d : SessionCreate) : Option (Session × SessionManager) :=
  match _generate_session_code mgr candidates with
  | none => none
  | some code =>
    let s : Session :=
      { id := sid, sessionCode := code, restaurantName := d.restaurantName,
        receiptImageUrl := d.receiptImageUrl, subtotal := d.subtotal, tax := d.tax,
        tip := d.tip, total := d.total, createdBy := none, status := .active,
        createdAt := now, updatedAt := now, items := [], participants := [],
        assignments := [] }
    some (s, { mgr with
      sessions := dset mgr.sessions sid s,
      sessions_by_code := dset mgr.sessions_by_code code sid })

def get_session (mgr : SessionManager) (sid : String) : Option Session :=
  dget mgr.sessions sid

/-- `get_session_by_code`; the `if session_id:` truthiness check makes an
empty-string session id behave like a miss. -/
def get_session_by_code (mgr : SessionManager) (code : String) : Option Session :=
  match dget mgr.sessions_by_code code with
  | some sid => if sid = "" then none else dget mgr.sessions sid
  | none => none

/-- One `key: value` entry of an `update_session` dict: one constructor per
settable `Session` attribute, `unknown` for keys failing `hasattr`. -/
inductive SUpd where
  | restaurantName (v : Option String)
  | receiptImageUrl (v : Option String)
  | subtotal (v : ℚ)
  | tax (v : ℚ)
  | tip (v : ℚ)
  | total (v : ℚ)
  | createdBy (v : Option String)
  | status (v : SessionStatus)
  | sessionCode (v : String)
  | id (v : String)
  | createdAt (v : ℕ)
  | updatedAt (v : ℕ)
  | items (v : List BillItem)
  | participants (v : List Participant)
  | assignments (v : List ItemAssignment)
  | unknown (key : String)
  deriving DecidableEq, Repr

def apply_supd (s : Session) : SUpd → Session
  | .restaurantName v => { s with restaurantName := v }
  | .receiptImageUrl v => { s with receiptImageUrl := v }
  | .subtotal v => { s with subtotal := v }
  | .tax v => { s with tax := v }
  | .tip v => { s with tip := v }
  | .total v => { s with total := v }
  | .createdBy v => { s with createdBy := v }
  | .status v => { s with status := v }
  | .sessionCode v => { s with sessionCode := v }
  | .id v => { s with id := v }
  | .createdAt v => { s with createdAt := v }
  | .updatedAt v => { s with updatedAt := v }
  | .items v => { s with items := v }
  | .participants v => { s with participants := v }
  | .assignments v => { s with assignments := v }
  | .unknown _ => s

def SUpd.isCodeUpd : SUpd → Bool
  | .sessionCode _ => true
  | _ => false

/-- `update_session`: merge-patch the fields, then stamp `updatedAt = now`. -/
def update_session (mgr : SessionManager) (sid : String) (us : List SUpd)
    (now : ℕ) : Option Session × SessionManager :=
  match dget mgr.sessions sid with
  | none => (none, mgr)
  | some s =>
    let s' : Session := { us.foldl apply_supd s with updatedAt := now }
    (some s', { mgr with sessions := dmodify mgr.sessions sid (fun _ => s') })

inductive DelRes where
  | notFound | ok | keyError
  deriving DecidableEq, Repr

/-- `delete_session`: removes the session, then `del sessions_by_code[code]`;
`keyError` is the state after the first `del` when the second raises. -/
def delete_session (mgr : SessionManager) (sid : String) : DelRes × SessionManager :=
  match dget mgr.sessions sid with
  | none => (.notFound, mgr)
  | some s =>
    let sessions' := derase mgr.sessions sid
    match ddel mgr.sessions_by_code s.sessionCode with
    | none => (.keyError, { mgr with sessions := sessions' })
    | some bc => (.ok, { mgr with sessions := sessions', sessions_by_code := bc })

def add_participant (mgr : SessionManager) (sid pid : String) (now : ℕ)
    (d : ParticipantCreate) : Option Participant × SessionManager :=
  match dget mgr.sessions sid with
  | none => (none, mgr)
  | some _ =>
    let p : Participant :=
      { id := pid, sessionId := sid, userId := d.userId, guestName := d.guestName,
        amountOwed := d.amountOwed, amountPaid := d.amountPaid,
        paymentStatus := d.paymentStatus, joinedAt := now }
    let f : Session → Session :=
      fun s => { s with participants := s.participants ++ [p], updatedAt := now }
    (some p, { mgr with sessions := dmodify mgr.sessions sid f })

/-- Linear scan over `self.sessions.values()`: mutate the first session on
which `f` fires, leave the rest untouched. -/
def modifyFirst {α : Type} :
    List (String × Session) → (Session → Option (α × Session)) →
    Option α × List (String × Session)
  | [], _ => (none, [])
  | (k, s) :: rest, f =>
    match f s with
    | some (a, s') => (some a, (k, s') :: rest)
    | none =>
      let r := modifyFirst rest f
      (r.1, (k, s) :: r.2)

/-- Mutate the first list element satisfying `p` in place, returning it. -/
def updFirst {α : Type} (p : α → Bool) (f : α → α) : List α → Option α × List α
  | [] => (none, [])
  | x :: xs =>
    if p x then (some (f x), f x :: xs)
    else
      let r := updFirst p f xs
      (r.1, x :: r.2)

/-- Delete the first list element satisfying `p`. -/
def delFirst {α : Type} (p : α → Bool) : List α → Bool × List α
  | [] => (false, [])
  | x :: xs =>
    if p x then (true, xs)
    else
      let r := delFirst p xs
      (r.1, x :: r.2)

/-- One `key: value` entry of an `update_participant` dict. -/
inductive PUpd where
  | id (v : String)
  | sessionId (v : String)
  | userId (v : Option String)
  | guestName (v : Option String)
  | amountOwed (v : ℚ)
  | amountPaid (v : ℚ)
  | paymentStatus (v : PaymentStatus)
  | joinedAt (v : ℕ)
  | unknown (key : String)
  deriving DecidableEq, Repr

def apply_pupd (p : Participant) : PUpd → Participant
  | .id v => { p with id := v }
  | .sessionId v => { p with sessionId := v }
  | .userId v => { p with userId := v }
  | .guestName v => { p with guestName := v }
  | .amountOwed v => { p with amountOwed := v }
  | .amountPaid v => { p with amountPaid := v }
  | .paymentStatus v => { p with paymentStatus := v }
  | .joinedAt v => { p with joinedAt := v }
  | .unknown _ => p

/-- `update_participant`: cross-session linear search, merge-patch, bump
the owning session's `updatedAt`. -/
def update_participant (mgr : SessionManager) (pid : String) (us : List PUpd)
    (now : ℕ) : Option Participant × SessionManager :=
  let r := modifyFirst mgr.sessions (fun s =>
    let u := updFirst (fun p => p.id = pid) (fun p => us.foldl apply_pupd p)
      s.participants
    match u.1 with
    | some p' => some (p', { s with participants := u.2, updatedAt := now })
    | none => none)
  (r.1, { mgr with sessions := r.2 })

def add_item (mgr : SessionManager) (sid iid : String) (now : ℕ)
    (d : BillItemCreate) : Option BillItem × SessionManager :=
  match dget mgr.sessions sid with
  | none => (none, mgr)
  | some _ =>
    let it : BillItem :=
      { id := iid, sessionId := sid, name := d.name, price := d.price,
        quantity := d.quantity, category := d.category, lineNumber := d.lineNumber }
    let f : Session → Session :=
      fun s => { s with items := s.items ++ [it], updatedAt := now }
    (some it, { mgr with sessions := dmodify mgr.sessions sid f })

def get_item_in (l : List (String × Session)) (iid : String) : Option BillItem :=
  match l with
  | [] => none
  | e :: rest =>
    match e.2.items.find? (fun it => it.id = iid) with
    | some it => some it
    | none => get_item_in rest iid

/-- `get_item`: cross-session linear search by item id. -/
def get_item (mgr : SessionManager) (iid : String) : Option BillItem :=
  get_item_in mgr.sessions iid

/-- One `key: value` entry of an `update_item` dict. -/
inductive IUpd where
  | id (v : String)
  | sessionId (v : String)
  | name (v : String)
  | price (v : ℚ)
  | quantity (v : ℤ)
  | category (v : Option String)
  | lineNumber (v : ℤ)
  | unknown (key : String)
  deriving DecidableEq, Repr

def apply_iupd (it : BillItem) : IUpd → BillItem
  | .id v => { it with id := v }
  | .sessionId v => { it with sessionId := v }
  | .name v => { it with name := v }
  | .price v => { it with price := v }
  | .quantity v => { it with quantity := v }
  | .category v => { it with category := v }
  | .lineNumber v => { it with lineNumber := v }
  | .unknown _ => it

def update_item (mgr : SessionManager) (iid : String) (us : List IUpd)
    (now : ℕ) : Option BillItem × SessionManager :=
  let r := modifyFirst mgr.sessions (fun s =>
    let u := updFirst (fun it => it.id = iid) (fun it => us.foldl apply_iupd it)
      s.items
    match u.1 with
    | some it' => some (it', { s with items := u.2, updatedAt := now })
    | none => none)
  (r.1, { mgr with sessions := r.2 })

def delete_item (mgr : SessionManager) (iid : String) (now : ℕ) :
    Bool × SessionManager :=
  let r := modifyFirst mgr.sessions (fun s =>
    let u := delFirst (fun it => it.id = iid) s.items
    if u.1 then some ((), { s with items := u.2, updatedAt := now }) else none)
  (r.1.isSome, { mgr with sessions := r.2 })

/-- The `ItemAssignment` record `add_assignment` builds from a request. -/
def mkAsg (aid : String) (d : ItemAssignmentCreate) : ItemAssignment :=
  { id := aid, itemId := d.itemId, participantId := d.participantId,
    splitPercentage := d.splitPercentage, amount := d.amount }

/-- The in-place mutation `add_assignment` performs on the owning session. -/
def appendAsg (a : ItemAssignment) (now : ℕ) (s : Session) : Session :=
  { s with assignments := s.assignments ++ [a], updatedAt := now }

/-- The store after `add_assignment` appends `a` to the session under `k`. -/
def add_assignment_touched (mgr : SessionManager) (k : String)
    (a : ItemAssignment) (now : ℕ) : SessionManager :=
  { mgr with sessions := dmodify mgr.sessions k (appendAsg a now) }

/-- `add_assignment`: resolve the item, then its owning session, append the
assignment there; the `participantId` is taken as given, never validated. -/
def add_assignment (mgr : SessionManager) (aid : String) (now : ℕ)
    (d : ItemAssignmentCreate) : Option ItemAssignment × SessionManager :=
  match get_item mgr d.itemId with
  | none => (none, mgr)
  | some item =>
    match dget mgr.sessions item.sessionId with
    | none => (none, mgr)
    | some _ =>
      (some (mkAsg aid d), add_assignment_touched mgr item.sessionId (mkAsg aid d) now)

def delete_assignment (mgr : SessionManager) (aid : String) (now : ℕ) :
    Bool × SessionManager :=
  let r := modifyFirst mgr.sessions (fun s =>
    let u := delFirst (fun a => a.id = aid) s.assignments
    if u.1 then some ((), { s with assignments := u.2, updatedAt := now }) else none)
  (r.1.isSome, { mgr with sessions := r.2 })

/-! ## Routes (routes/sessions.py) -/
inductive ApiError where
  | notFound | badRequest
  deriving DecidableEq, Repr

/-- `session_code.upper()`: character-wise ASCII upper-casing. -/
def pyUpper (s : String) : String := String.mk (s.data.map Char.toUpper)

/-- `GET /api/sessions/code/{code}`: the route upper-cases the argument
before the exact-match store lookup. -/
def get_session_by_code_route (mgr : SessionManager) (code : String) :
    Option Session :=
  get_session_by_code mgr (pyUpper code)

/-- One `key: value` entry of an `update_assignment` dict. -/
inductive AUpd where
  | id (v : String)
  | itemId (v : String)
  | participantId (v : String)
  | splitPercentage (v : ℚ)
  | amount (v : ℚ)
  | unknown (key : String)
  deriving DecidableEq, Repr

def apply_aupd (a : ItemAssignment) : AUpd → ItemAssignment
  | .id v => { a with id := v }
  | .itemId v => { a with itemId := v }
  | .participantId v => { a with participantId := v }
  | .splitPercentage v => { a with splitPercentage := v }
  | .amount v => { a with amount := v }
  | .unknown _ => a

/-- `PUT /api/sessions/assignments/{id}`: the route mutates the assignment in
place and returns it; note it never touches the session's `updatedAt`. -/
def update_assignment_route (mgr : SessionManager) (aid : String)
    (us : List AUpd) : Option ItemAssignment × SessionManager :=
  let r := modifyFirst mgr.sessions (fun s =>
    let u := updFirst (fun a => a.id = aid) (fun a => us.foldl apply_aupd a)
      s.assignments
    match u.1 with
    | some a' => some (a', { s with assignments := u.2 })
    | none => none)
  (r.1, { mgr with sessions := r.2 })

/-- The assignments the `assign_item` loop constructs, one per participant id,
with fresh ids `aids i`, `aids (i+1)`, …. -/
def mkAsgs (aids : ℕ → String) (iid : String) (pct amt : ℚ) :
    ℕ → List String → List ItemAssignment
  | _, [] => []
  | i, pid :: rest =>
    { id := aids i, itemId := iid, participantId := pid,
      splitPercentage := pct, amount := amt } :: mkAsgs aids iid pct amt (i + 1) rest

/-- The `for participant_id in data.participantIds` loop of `assign_item`:
each iteration calls `add_assignment` and keeps only successful results. -/
def assign_loop (aids : ℕ → String) (now : ℕ) (iid : String) (pct amt : ℚ) :
    SessionManager → ℕ → List String → List ItemAssignment × SessionManager
  | mgr, _, [] => ([], mgr)
  | mgr, i, pid :: rest =>
    match add_assignment mgr (aids i) now
        { itemId := iid, participantId := pid, splitPercentage := pct, amount := amt } with
    | (some a, mgr') =>
      let r := assign_loop aids now iid pct amt mgr' (i + 1) rest
      (a :: r.1, r.2)
    | (none, mgr') =>
      assign_loop aids now iid pct amt mgr' (i + 1) rest

/-- `POST /api/sessions/items/assign`: 404 before the empty-list 400 check,
then `splitPercentage = 1/N` (or `1.0` when not splitting equally) and
`amount = price * quantity * splitPercentage` for every participant. -/
def assign_item (mgr : SessionManager) (aids : ℕ → String) (now : ℕ)
    (req : AssignItemRequest) :
    Except ApiError (List ItemAssignment) × SessionManager :=
  match get_item mgr req.itemId with
  | none => (.error .notFound, mgr)
  | some item =>
    if req.participantIds.length = 0 then (.error .badRequest, mgr)
    else
      let pct : ℚ := if req.splitEqually then 1 / (req.participantIds.length : ℚ) else 1
      let amt : ℚ := item.price * (item.quantity : ℚ) * pct
      let r := assign_loop aids now req.itemId pct amt mgr 0 req.participantIds
      (.ok r.1, r.2)

/-- One `create_session` request together with its nondeterministic inputs. -/
structure CreateCall where
  sid : String
  candidates : List String
  now : ℕ
  data : SessionCreate
  deriving Repr

/-- A sequence of `create_session` calls with no interleaved operations. -/
def create_many (mgr : SessionManager) :
    List CreateCall → Option (List Session × SessionManager)
  | [] => some ([], mgr)
  | c :: rest =>
    match create_session mgr c.sid c.candidates c.now c.data with
    | none => none
    | some (s, mgr') =>
      match create_many mgr' rest with
      | none => none
      | some (ss, mgr'') => some (s :: ss, mgr'')

def sampleItem : BillItem :=
  { id := "i1", sessionId := "s1", name := "Burger", price := 10, quantity := 2,
    category := none, lineNumber := 1 }

def sampleSession : Session :=
  { id := "s1", sessionCode := "AAAAAA", restaurantName := some "Cafe",
    receiptImageUrl := none, subtotal := 20, tax := 0, tip := 0, total := 20,
    createdBy := none, status := .active, createdAt := 5, updatedAt := 5,
    items := [sampleItem], participants := [], assignments := [] }

def sampleMgr : SessionManager :=
  ⟨[("s1", sampleSession)], [("AAAAAA", "s1")], []⟩

/-! ## C6: `updatedAt` across mutations; the assignment-update route -/
def c6asg : ItemAssignment :=
  { id := "a1", itemId := "i1", participantId := "p1", splitPercentage := 1,
    amount := 10 }

def c6sess : Session :=
  { id := "s1", sessionCode := "AAAAAA", restaurantName := none,
    receiptImageUrl := none, subtotal := 10, tax := 0, tip := 0, total := 10,
    createdBy := none, status := .active, createdAt := 5, updatedAt := 5,
    items := [sampleItem], participants := [], assignments := [c6asg] }

def c6mgr : SessionManager := ⟨[("s1", c6sess)], [("AAAAAA", "s1")], []⟩

def c2calls : List CreateCall :=
  [{ sid := "s1", candidates := ["AAAAAA"], now := 0,
     data := ⟨none, none, 0, 0, 0, 0⟩ },
   { sid := "s2", candidates := ["AAAAAA", "BBBBBB"], now := 1,
     data := ⟨none, none, 0, 0, 0, 0⟩ }]

/-! ## C7: lookup-by-code across operation sequences -/
/-- One store operation, with its nondeterministic inputs made explicit. -/
inductive Step where
  | screate (sid : String) (cands : List String) (now : ℕ) (d : SessionCreate)
  | supdate (sid : String) (us : List SUpd) (now : ℕ)
  | sdelete (sid : String)
  | paddNew (sid pid : String) (now : ℕ) (d : ParticipantCreate)
  | pupdate (pid : String) (us : List PUpd) (now : ℕ)
  | iaddNew (sid iid : String) (now : ℕ) (d : BillItemCreate)
  | iupdate (iid : String) (us : List IUpd) (now : ℕ)
  | idelete (iid : String) (now : ℕ)
  | aaddNew (aid : String) (now : ℕ) (d : ItemAssignmentCreate)
  | aupdate (aid : String) (us : List AUpd)
  | adelete (aid : String) (now : ℕ)
  deriving Repr

def stepRun (mgr : SessionManager) : Step → SessionManager
  | .screate sid cands now d =>
    match create_session mgr sid cands now d with
    | some (_, m) => m
    | none => mgr
  | .supdate sid us now => (update_session mgr sid us now).2
  | .sdelete sid => (delete_session mgr sid).2
  | .paddNew sid pid now d => (add_participant mgr sid pid now d).2
  | .pupdate pid us now => (update_participant mgr pid us now).2
  | .iaddNew sid iid now d => (add_item mgr sid iid now d).2
  | .iupdate iid us now => (update_item mgr iid us now).2
  | .idelete iid now => (delete_item mgr iid now).2
  | .aaddNew aid now d => (add_assignment mgr aid now d).2
  | .aupdate aid us => (update_assignment_route mgr aid us).2
  | .adelete aid now => (delete_assignment mgr aid now).2

def run (mgr : SessionManager) : List Step → SessionManager
  | [] => mgr
  | st :: rest => run (stepRun mgr st) rest

/-- Steps compatible with tracking session `s0`: it is not deleted, no fresh
session reuses its id (uuids are fresh), and no update patches any session's
`sessionCode` attribute (C9 shows such a patch leaves the code index stale). -/
def stepOK (s0 : String) : Step → Bool
  | .sdelete sid => if sid = s0 then false else true
  | .screate sid _ _ _ => if sid = s0 then false else true
  | .supdate _ us _ => us.all (fun u => u.isCodeUpd = false)
  | _ => true

/-- Both entries keep their key and their session's `sessionCode`. -/
def keyCodeRel (a b : String × Session) : Prop :=
  b.1 = a.1 ∧ b.2.sessionCode = a.2.sessionCode

/-- The tracked session `s0` with code `code`: the index maps `code` to `s0`,
`s0` is live, no other session's attribute equals `code`, and both
dictionaries have distinct keys (as Python dicts always do). -/
def TrackInv (s0 code : String) (mgr : SessionManager) : Prop :=
  dget mgr.sessions_by_code code = some s0 ∧
  (dget mgr.sessions s0).isSome = true ∧
  (∀ e ∈ mgr.sessions, e.1 ≠ s0 → e.2.sessionCode ≠ code) ∧
  (mgr.sessions.map Prod.fst).Nodup ∧
  (mgr.sessions_by_code.map Prod.fst).Nodup

def wData : SessionCreate := ⟨none, none, 0, 0, 0, 0⟩

def wSess : Session :=
  { id := "s1", sessionCode := "AAAAAA", restaurantName := none,
    receiptImageUrl := none, subtotal := 0, tax := 0, tip := 0, total := 0,
    createdBy := none, status := .active, createdAt := 0, updatedAt := 0,
    items := [], participants := [], assignments := [] }

def wMgr1 : SessionManager := ⟨[("s1", wSess)], [("AAAAAA", "s1")], []⟩

def wSteps : List Step :=
  [.screate "s2" ["BBBBBB"] 1 wData,
   .paddNew "s1" "p1" 2 ⟨none, some "Ana", 0, 0, .pending⟩,
   .iaddNew "s1" "i1" 3 ⟨"Tea", 3, 1, none, 1⟩,
   .supdate "s1" [SUpd.restaurantName (some "Cafe")] 4,
   .sdelete "s2"]

def cex7m1 : SessionManager := stepRun emptyMgr (.screate "s1" ["AAAAAA"] 0 wData)

def cex7trace : List Step :=
  [.screate "s2" ["BBBBBB"] 1 wData,
   .supdate "s2" [SUpd.sessionCode "AAAAAA"] 2,
   .sdelete "s2"]

def cex7final : SessionManager := run cex7m1 cex7trace

/-! ## Theorems on the validator and receipt conversion (C3, C4, C10) -/
/-- C3: for every parsed receipt, the math-mismatch issue is appended exactly
when `subtotal`, `tax`, `total` are all present and
`|subtotal + tax + (tip or 0) - total| > 0.02`; when present it carries both
operands (`calculated` and `total`, alongside their summands) and the computed
difference; when any of the three fields is null, no such issue is produced. -/
theorem validator_math_mismatch_issue (r : ReceiptData) :
    (_validate_receipt r).issues.filter ValIssue.isMath =
      (match r.subtotal, r.tax, r.total with
       | some st, some tx, some tot =>
         if |st + tx + pyOr r.tip 0 - tot| > 2/100 then
           [ValIssue.mathMismatch st tx (pyOr r.tip 0) (st + tx + pyOr r.tip 0) tot
             |st + tx + pyOr r.tip 0 - tot|]
         else []
       | _, _, _ => []) := by
  rcases r with ⟨rn, items, st, tx, tp, tot, conf⟩
  cases st <;> cases tx <;> cases tot <;>
    simp only [_validate_receipt] <;>
    split <;>
    simp [ValIssue.isMath, List.filter_append, List.filter]

/-- C4: for every parsed receipt, the items-vs-subtotal warning is appended
exactly when the items list is non-empty, `subtotal` is present, and
`|itemsSum - subtotal| > 0.02` (it is a warning, by type never an issue);
and `is_valid` is true exactly when the issues list is empty, so warnings
never affect validity. -/
theorem validator_items_sum_warning (r : ReceiptData) :
    ((_validate_receipt r).warnings.filter ValWarn.isSumWarn =
      (match r.subtotal with
       | some st =>
         if r.items ≠ [] ∧ |itemsSum r.items - st| > 2/100 then
           [ValWarn.itemsSumMismatch (itemsSum r.items) st]
         else []
       | none => [])) ∧
    ((_validate_receipt r).is_valid = true ↔ (_validate_receipt r).issues = []) := by
  constructor
  · rcases r with ⟨rn, items, st, tx, tp, tot, conf⟩
    cases st with
    | none =>
      cases tot <;> simp [_validate_receipt, ValWarn.isSumWarn, List.filter]
    | some stv =>
      by_cases hitems : items = []
      · cases tot <;> simp_all [_validate_receipt, ValWarn.isSumWarn, List.filter]
      · by_cases hdiff : 2/100 < |itemsSum items - stv|
        · cases tot <;>
            simp_all [_validate_receipt, ValWarn.isSumWarn, List.filter,
              List.filter_append]
        · cases tot <;>
            simp_all [_validate_receipt, ValWarn.isSumWarn, List.filter, if_neg hdiff]
  · simp [_validate_receipt, List.isEmpty_iff]

/-- C10: the receipt returned by the scan/get-receipt conversion replaces each
null (or falsy) monetary field with `0`, each null/falsy item price with `0`
and null/falsy quantity with `1`, assigns `lineNumber = idx + 1`; and the
`"No total found"` warning is present exactly when the parsed total is null,
in which case the returned total is still `0` rather than missing. -/
theorem receipt_conversion_defaults (rid : String) (d : ReceiptData) :
    (build_receipt rid d).subtotal = pyOr d.subtotal 0 ∧
    (build_receipt rid d).tax = pyOr d.tax 0 ∧
    (build_receipt rid d).tip = pyOr d.tip 0 ∧
    (build_receipt rid d).total = pyOr d.total 0 ∧
    (build_receipt rid d).items = d.items.mapIdx (fun idx it =>
      { name := it.name.getD "Unknown Item"
        price := pyOr it.price 0
        quantity := pyOr it.quantity 1
        category := none
        lineNumber := (idx : ℤ) + 1 }) ∧
    (ValWarn.noTotal ∈ (_validate_receipt d).warnings ↔ d.total = none) ∧
    (d.total = none → (build_receipt rid d).total = 0) := by
  refine ⟨rfl, rfl, rfl, rfl, rfl, ?_, ?_⟩
  · rcases d with ⟨rn, items, st, tx, tp, tot, conf⟩
    cases st <;> cases tot <;>
      simp only [_validate_receipt] <;>
      split_ifs <;>
      simp_all
  · intro h
    simp [build_receipt, h, pyOr]

/-- Witness for `receipt_conversion_defaults` at a concrete receipt with a null
total: the warning is produced and the returned total is `0`. -/
theorem receipt_conversion_defaults_witness :
    (build_receipt "r1"
      { restaurant_name := some "Cafe", items := [⟨some "Tea", some 3, none⟩],
        subtotal := some 3, tax := none, tip := none, total := none,
        confidence := some "medium" }).total = 0 ∧
    ValWarn.noTotal ∈ (_validate_receipt
      { restaurant_name := some "Cafe", items := [⟨some "Tea", some 3, none⟩],
        subtotal := some 3, tax := none, tip := none, total := none,
        confidence := some "medium" }).warnings :=
  ⟨(receipt_conversion_defaults "r1" _).2.2.2.2.2.2 rfl,
   ((receipt_conversion_defaults "r1" _).2.2.2.2.2.1).mpr rfl⟩

/-! ## Dictionary lemmas -/
theorem dget_dset_self {α : Type} (l : List (String × α)) (k : String) (v : α) :
    dget (dset l k v) k = some v := by
  induction l with
  | nil => simp [dget, dset]
  | cons e rest ih =>
    by_cases h : e.1 = k <;> simp [dget, dset, h, ih]

theorem dget_dset_ne {α : Type} (l : List (String × α)) (k kq : String) (v : α)
    (h : kq ≠ k) : dget (dset l k v) kq = dget l kq := by
  induction l with
  | nil => simp [dget, dset, Ne.symm h]
  | cons e rest ih =>
    by_cases h1 : e.1 = k
    · simp [dget, dset, h1, Ne.symm h]
    · by_cases h2 : e.1 = kq <;> simp [dget, dset, h1, h2, ih, h]

theorem dget_dmodify_self {α : Type} (l : List (String × α)) (k : String)
    (f : α → α) (v : α) (h : dget l k = some v) :
    dget (dmodify l k f) k = some (f v) := by
  induction l with
  | nil => simp [dget] at h
  | cons e rest ih =>
    by_cases h1 : e.1 = k
    · simp [dget, h1] at h
      simp [dget, dmodify, h1, h]
    · simp [dget, h1] at h
      simp [dget, dmodify, h1, ih h]

theorem dget_dmodify_ne {α : Type} (l : List (String × α)) (k kq : String)
    (f : α → α) (h : kq ≠ k) : dget (dmodify l k f) kq = dget l kq := by
  induction l with
  | nil => simp [dmodify]
  | cons e rest ih =>
    by_cases h1 : e.1 = k
    · simp [dget, dmodify, h1, Ne.symm h]
    · by_cases h2 : e.1 = kq <;> simp [dget, dmodify, h1, h2, ih, h]

theorem dget_derase_ne {α : Type} (l : List (String × α)) (k kq : String)
    (h : kq ≠ k) : dget (derase l k) kq = dget l kq := by
  induction l with
  | nil => simp [derase]
  | cons e rest ih =>
    by_cases h1 : e.1 = k
    · simp [dget, derase, h1, Ne.symm h]
    · by_cases h2 : e.1 = kq <;> simp [dget, derase, h1, h2, ih, h]

theorem dget_mem {α : Type} (l : List (String × α)) (k : String) (v : α)
    (h : dget l k = some v) : (k, v) ∈ l := by
  induction l with
  | nil => simp [dget] at h
  | cons e rest ih =>
    by_cases h1 : e.1 = k
    · rcases e with ⟨k1, v1⟩
      have hk : k1 = k := h1
      subst hk
      simp [dget] at h
      subst h
      exact List.mem_cons_self _ _
    · simp [dget, h1] at h
      exact List.mem_cons_of_mem _ (ih h)

theorem mem_dget {α : Type} (l : List (String × α)) (k : String) (v : α)
    (hnd : (l.map Prod.fst).Nodup) (h : (k, v) ∈ l) : dget l k = some v := by
  induction l with
  | nil => simp at h
  | cons e rest ih =>
    simp only [List.map_cons, List.nodup_cons] at hnd
    rcases List.mem_cons.mp h with h1 | h1
    · simp [dget, ← h1]
    · have hk : e.1 ≠ k := by
        intro he
        exact hnd.1 (he ▸ (List.mem_map.mpr ⟨(k, v), h1, rfl⟩))
      simp [dget, hk, ih hnd.2 h1]

/-! ## Frame lemmas for `update_session` -/
/-- `update_session` never touches the code index, whatever the update dict. -/
theorem update_session_by_code_frame (mgr : SessionManager) (sid : String)
    (us : List SUpd) (now : ℕ) :
    (update_session mgr sid us now).2.sessions_by_code = mgr.sessions_by_code := by
  unfold update_session
  cases h : dget mgr.sessions sid <;> simp [h]

/-- `update_session` never touches the receipts store either. -/
theorem update_session_receipts_frame (mgr : SessionManager) (sid : String)
    (us : List SUpd) (now : ℕ) :
    (update_session mgr sid us now).2.receipts = mgr.receipts := by
  unfold update_session
  cases h : dget mgr.sessions sid <;> simp [h]

/-! ## C9: attribute overwrite through `update_session` leaves the index stale -/
/-- C9: `update_session` applies any update map to the stored attributes only:
the code index is never rewritten; patching `sessionCode` (or `id`, or
`createdAt`) overwrites that attribute on the stored session; afterwards the
original code still finds the session, and the newly written code value finds
nothing when it was not already some session's indexed code. -/
theorem update_session_code_overwrite_stale_index (mgr : SessionManager)
    (sid newCode newId : String) (newCA : ℕ) (s : Session) (now : ℕ) (us : List SUpd)
    (h1 : dget mgr.sessions sid = some s)
    (h2 : dget mgr.sessions_by_code s.sessionCode = some sid)
    (hsid : sid ≠ "") :
    ((update_session mgr sid us now).2.sessions_by_code = mgr.sessions_by_code) ∧
    (dget (update_session mgr sid [SUpd.sessionCode newCode] now).2.sessions sid =
      some { s with sessionCode := newCode, updatedAt := now }) ∧
    (get_session_by_code (update_session mgr sid [SUpd.sessionCode newCode] now).2
        s.sessionCode =
      some { s with sessionCode := newCode, updatedAt := now }) ∧
    (dget mgr.sessions_by_code newCode = none →
      get_session_by_code (update_session mgr sid [SUpd.sessionCode newCode] now).2
        newCode = none) ∧
    (dget (update_session mgr sid [SUpd.id newId] now).2.sessions sid =
      some { s with id := newId, updatedAt := now }) ∧
    (dget (update_session mgr sid [SUpd.createdAt newCA] now).2.sessions sid =
      some { s with createdAt := newCA, updatedAt := now }) := by
  have hmod : ∀ us' : List SUpd,
      (update_session mgr sid us' now).2.sessions =
        dmodify mgr.sessions sid
          (fun _ => { us'.foldl apply_supd s with updatedAt := now }) := by
    intro us'
    unfold update_session
    simp [h1]
  refine ⟨update_session_by_code_frame mgr sid us now, ?_, ?_, ?_, ?_, ?_⟩
  · rw [hmod [SUpd.sessionCode newCode]]
    exact dget_dmodify_self _ _ _ _ h1
  · rw [get_session_by_code, update_session_by_code_frame, h2]
    simp only [hsid, if_false]
    rw [hmod [SUpd.sessionCode newCode]]
    exact dget_dmodify_self _ _ _ _ h1
  · intro hnew
    rw [get_session_by_code, update_session_by_code_frame, hnew]
  · rw [hmod [SUpd.id newId]]
    exact dget_dmodify_self _ _ _ _ h1
  · rw [hmod [SUpd.createdAt newCA]]
    exact dget_dmodify_self _ _ _ _ h1

/-- Witness for `update_session_code_overwrite_stale_index` on a concrete
one-session store, patching the code to `"ZZZZZZ"`. -/
theorem update_session_code_overwrite_stale_index_witness :
    (dget (update_session sampleMgr "s1" [SUpd.sessionCode "ZZZZZZ"] 9).2.sessions
        "s1" = some { sampleSession with sessionCode := "ZZZZZZ", updatedAt := 9 }) ∧
    (get_session_by_code (update_session sampleMgr "s1" [SUpd.sessionCode "ZZZZZZ"] 9).2
        "AAAAAA" =
      some { sampleSession with sessionCode := "ZZZZZZ", updatedAt := 9 }) ∧
    (get_session_by_code (update_session sampleMgr "s1" [SUpd.sessionCode "ZZZZZZ"] 9).2
        "ZZZZZZ" = none) := by
  have h := update_session_code_overwrite_stale_index sampleMgr "s1" "ZZZZZZ" "x" 0
    sampleSession 9 [] rfl rfl (by decide)
  exact ⟨h.2.1, h.2.2.1, h.2.2.2.1 rfl⟩

/-! ## C5: assigning to an empty participant list -/
/-- C5 (amended): when the item resolves, an empty `participantIds` list is
rejected with the invalid-request error and the store is returned unchanged
(zero assignment records created). -/
theorem assign_empty_list_rejected (mgr : SessionManager) (aids : ℕ → String)
    (now : ℕ) (iid : String) (se : Bool) (item : BillItem)
    (hitem : get_item mgr iid = some item) :
    assign_item mgr aids now ⟨iid, [], se⟩ = (.error .badRequest, mgr) := by
  simp [assign_item, hitem]

/-- Witness for `assign_empty_list_rejected` on the concrete one-item store. -/
theorem assign_empty_list_rejected_witness :
    assign_item sampleMgr (fun _ => "a0") 7 ⟨"i1", [], true⟩ =
      (.error .badRequest, sampleMgr) :=
  assign_empty_list_rejected sampleMgr (fun _ => "a0") 7 "i1" true sampleItem rfl

/-- C5 counterexample: an empty-list request whose item id is unknown fails
with the not-found error, not the invalid-request error, the store unchanged —
the 404 check runs before the empty-list 400 check. -/
theorem assign_empty_list_unknown_item_not_bad_request :
    (assign_item emptyMgr (fun _ => "a0") 0 ⟨"X", [], true⟩).1 =
      Except.error ApiError.notFound ∧
    ApiError.notFound ≠ ApiError.badRequest ∧
    (assign_item emptyMgr (fun _ => "a0") 0 ⟨"X", [], true⟩).2 = emptyMgr :=
  ⟨rfl, by decide, rfl⟩

/-- C6 failing input: `PUT /assignments/a1` on a session whose `updatedAt` is
`5` mutates the assignment (`splitPercentage` becomes `1/2`) yet leaves the
session's `updatedAt` at `5` — the route never stamps the clock, so this
mutation does not advance `updatedAt` however much time has passed. -/
theorem assignment_update_leaves_updatedAt_unchanged :
    ((update_assignment_route c6mgr "a1" [AUpd.splitPercentage (1/2)]).1 =
      some { c6asg with splitPercentage := 1/2 }) ∧
    ((dget (update_assignment_route c6mgr "a1"
        [AUpd.splitPercentage (1/2)]).2.sessions "s1").map Session.updatedAt =
      some 5) ∧
    ((dget (update_assignment_route c6mgr "a1"
        [AUpd.splitPercentage (1/2)]).2.sessions "s1").map Session.assignments =
      some [{ c6asg with splitPercentage := 1/2 }]) := by
  refine ⟨rfl, rfl, rfl⟩

/-! ## C8: `add_assignment` validates the item only -/
theorem get_item_in_eq_some (l : List (String × Session)) (iid : String)
    (it : BillItem) (h : get_item_in l iid = some it) :
    ∃ e ∈ l, it ∈ e.2.items ∧ it.id = iid := by
  induction l with
  | nil => simp [get_item_in] at h
  | cons e rest ih =>
    rw [get_item_in] at h
    cases hf : e.2.items.find? (fun x => x.id = iid) with
    | some it' =>
      rw [hf] at h
      cases h
      refine ⟨e, List.mem_cons_self _ _, List.mem_of_find?_eq_some hf, ?_⟩
      have := List.find?_some hf
      simpa using this
    | none =>
      rw [hf] at h
      obtain ⟨e', he', hmem, hid⟩ := ih h
      exact ⟨e', List.mem_cons_of_mem _ he', hmem, hid⟩

/-- C8: with distinct session keys and every stored item's `sessionId` naming
its owning session, `add_assignment` fails exactly when no live session holds
an item with the requested `itemId`; whenever the item resolves, the
assignment is created and appended with the request's `participantId` taken
verbatim — no participant validation of any kind happens. -/
theorem add_assignment_item_only_validation (mgr : SessionManager)
    (aid : String) (now : ℕ) (d : ItemAssignmentCreate)
    (hnd : (mgr.sessions.map Prod.fst).Nodup)
    (hwf : ∀ e ∈ mgr.sessions, ∀ it ∈ e.2.items, it.sessionId = e.1) :
    ((add_assignment mgr aid now d).1 = none ↔ get_item mgr d.itemId = none) ∧
    (∀ item, get_item mgr d.itemId = some item →
      (add_assignment mgr aid now d).1 = some (mkAsg aid d) ∧
      ∃ sess, dget mgr.sessions item.sessionId = some sess ∧
        dget (add_assignment mgr aid now d).2.sessions item.sessionId =
          some { sess with assignments := sess.assignments ++ [mkAsg aid d],
                           updatedAt := now }) := by
  cases hg : get_item mgr d.itemId with
  | none =>
    constructor
    · simp [add_assignment, hg]
    · intro item h
      exact Option.noConfusion h
  | some item =>
    obtain ⟨e, he, hmem, _⟩ := get_item_in_eq_some mgr.sessions d.itemId item hg
    have hsid : item.sessionId = e.1 := hwf e he item hmem
    have hsess : dget mgr.sessions item.sessionId = some e.2 := by
      rw [hsid]
      exact mem_dget _ _ _ hnd (by rcases e with ⟨k, s⟩; exact he)
    constructor
    · simp [add_assignment, hg, hsess]
    · intro item' h
      injection h with h2
      subst h2
      refine ⟨?_, e.2, hsess, ?_⟩
      · simp [add_assignment, hg, hsess]
      · simp only [add_assignment, hg, hsess]
        exact dget_dmodify_self _ _ _ _ hsess

/-- Witness for `add_assignment_item_only_validation`: on the concrete
one-session store, assigning item `i1` to the nonexistent participant
`"ghost"` succeeds and appends the record. -/
theorem add_assignment_item_only_validation_witness :
    (add_assignment sampleMgr "a9" 8 ⟨"i1", "ghost", 1, 20⟩).1 =
      some (mkAsg "a9" ⟨"i1", "ghost", 1, 20⟩) :=
  ((add_assignment_item_only_validation sampleMgr "a9" 8 ⟨"i1", "ghost", 1, 20⟩
    (by decide) (by decide)).2 sampleItem rfl).1

/-! ## C2: session-code uniqueness across a creation sequence -/
theorem generate_code_spec (mgr : SessionManager) (cands : List String)
    (code : String) (h : _generate_session_code mgr cands = some code) :
    code ∈ cands ∧ dget mgr.sessions_by_code code = none := by
  refine ⟨List.mem_of_find?_eq_some h, ?_⟩
  have := List.find?_some h
  simpa [Option.isNone_iff_eq_none] using this

theorem create_session_spec (mgr : SessionManager) (sid : String)
    (cands : List String) (now : ℕ) (d : SessionCreate) (s : Session)
    (mgr' : SessionManager) (h : create_session mgr sid cands now d = some (s, mgr')) :
    s.sessionCode ∈ cands ∧
    dget mgr.sessions_by_code s.sessionCode = none ∧
    mgr'.sessions_by_code = dset mgr.sessions_by_code s.sessionCode sid := by
  cases hg : _generate_session_code mgr cands with
  | none => simp [create_session, hg] at h
  | some code =>
    simp only [create_session, hg] at h
    cases h
    obtain ⟨hmem, hnone⟩ := generate_code_spec mgr cands code hg
    exact ⟨hmem, hnone, rfl⟩

theorem create_many_spec (calls : List CreateCall) :
    ∀ (mgr : SessionManager) (ss : List Session) (mgr' : SessionManager),
      create_many mgr calls = some (ss, mgr') →
      (ss.map Session.sessionCode).Pairwise (· ≠ ·) ∧
      (∀ s ∈ ss, dget mgr.sessions_by_code s.sessionCode = none) ∧
      (∀ s ∈ ss, ∃ c ∈ calls, s.sessionCode ∈ c.candidates) := by
  induction calls with
  | nil =>
    intro mgr ss mgr' h
    simp only [create_many] at h
    cases h
    simp
  | cons c rest ih =>
    intro mgr ss mgr' h
    rw [create_many] at h
    cases hc : create_session mgr c.sid c.candidates c.now c.data with
    | none =>
      simp only [hc] at h
      cases h
    | some pair =>
      rcases pair with ⟨s1, mgr1⟩
      simp only [hc] at h
      cases hr : create_many mgr1 rest with
      | none =>
        simp only [hr] at h
        cases h
      | some pair' =>
        rcases pair' with ⟨ss1, m2⟩
        simp only [hr] at h
        cases h
        obtain ⟨hmem, hnone, hbc⟩ :=
          create_session_spec mgr c.sid c.candidates c.now c.data s1 mgr1 hc
        obtain ⟨ihp, ihnone, ihcand⟩ := ih mgr1 ss1 mgr' hr
        have hne : ∀ s' ∈ ss1, s'.sessionCode ≠ s1.sessionCode := by
          intro s' hs' heq
          have h1 := ihnone s' hs'
          rw [hbc, heq, dget_dset_self] at h1
          cases h1
        refine ⟨?_, ?_, ?_⟩
        · simp only [List.map_cons, List.pairwise_cons]
          refine ⟨?_, ihp⟩
          intro a ha
          obtain ⟨s', hs', rfl⟩ := List.mem_map.mp ha
          exact fun heq => hne s' hs' (heq ▸ rfl)
        · intro s hs
          rcases List.mem_cons.mp hs with rfl | hs'
          · exact hnone
          · have h1 := ihnone s hs'
            rw [hbc, dget_dset_ne _ _ _ _ (hne s hs')] at h1
            exact h1
        · intro s hs
          rcases List.mem_cons.mp hs with rfl | hs'
          · exact ⟨c, List.mem_cons_self _ _, hmem⟩
          · obtain ⟨c', hc', hm⟩ := ihcand s hs'
            exact ⟨c', List.mem_cons_of_mem _ hc', hm⟩

/-- C2: any sequence of `create_session` calls (no interleaved operations)
yields pairwise-distinct session codes; each created code was free in the
code index it was generated against, and — provided the random stream only
produces 6-character uppercase-alphanumeric strings, as `random.choices`
does — each resulting code is such a string. -/
theorem session_codes_unique_and_valid (mgr : SessionManager)
    (calls : List CreateCall) (ss : List Session) (mgr' : SessionManager)
    (hrun : create_many mgr calls = some (ss, mgr'))
    (hcand : ∀ c ∈ calls, ∀ cd ∈ c.candidates, validCode cd) :
    (ss.map Session.sessionCode).Pairwise (· ≠ ·) ∧
    ∀ s ∈ ss, validCode s.sessionCode ∧
      dget mgr.sessions_by_code s.sessionCode = none := by
  obtain ⟨hp, hnone, hc⟩ := create_many_spec calls mgr ss mgr' hrun
  refine ⟨hp, fun s hs => ⟨?_, hnone s hs⟩⟩
  obtain ⟨c, hcmem, hmem⟩ := hc s hs
  exact hcand c hcmem _ hmem

/-- Witness for `session_codes_unique_and_valid`: two creations from the empty
store, the second retrying past the collision with `"AAAAAA"`. -/
theorem session_codes_unique_and_valid_witness :
    ((((create_many emptyMgr c2calls).getD ([], emptyMgr)).1.map
      Session.sessionCode).Pairwise (· ≠ ·)) ∧
    (((create_many emptyMgr c2calls).getD ([], emptyMgr)).1.map
      Session.sessionCode) = ["AAAAAA", "BBBBBB"] :=
  ⟨(session_codes_unique_and_valid emptyMgr c2calls
      ((create_many emptyMgr c2calls).getD ([], emptyMgr)).1
      ((create_many emptyMgr c2calls).getD ([], emptyMgr)).2
      rfl (by decide)).1,
   by decide⟩

/-! ## C1: the split engine (`assign_item`) -/
theorem get_item_in_dmodify (l : List (String × Session)) (k : String)
    (f : Session → Session) (hf : ∀ s, (f s).items = s.items) (iid : String) :
    get_item_in (dmodify l k f) iid = get_item_in l iid := by
  induction l with
  | nil => rfl
  | cons e rest ih =>
    rcases e with ⟨k1, s1⟩
    by_cases h1 : k1 = k
    · simp only [dmodify, if_pos h1]
      rw [get_item_in, get_item_in, hf s1]
    · simp only [dmodify, if_neg h1]
      rw [get_item_in, get_item_in]
      cases hfind : s1.items.find? (fun it => it.id = iid) with
      | some it => rfl
      | none => exact ih

theorem get_item_touched (mgr : SessionManager) (k : String)
    (a : ItemAssignment) (now : ℕ) (iid : String) :
    get_item (add_assignment_touched mgr k a now) iid = get_item mgr iid :=
  get_item_in_dmodify mgr.sessions k (appendAsg a now) (fun _ => rfl) iid

theorem mkAsgs_length (aids : ℕ → String) (iid : String) (pct amt : ℚ) :
    ∀ (pids : List String) (i : ℕ),
      (mkAsgs aids iid pct amt i pids).length = pids.length := by
  intro pids
  induction pids with
  | nil => intro i; rfl
  | cons pid rest ih => intro i; simp [mkAsgs, ih]

theorem mkAsgs_map_participant (aids : ℕ → String) (iid : String) (pct amt : ℚ) :
    ∀ (pids : List String) (i : ℕ),
      (mkAsgs aids iid pct amt i pids).map ItemAssignment.participantId = pids := by
  intro pids
  induction pids with
  | nil => intro i; rfl
  | cons pid rest ih => intro i; simp [mkAsgs, ih]

theorem mkAsgs_fields (aids : ℕ → String) (iid : String) (pct amt : ℚ) :
    ∀ (pids : List String) (i : ℕ) (a : ItemAssignment),
      a ∈ mkAsgs aids iid pct amt i pids →
      a.splitPercentage = pct ∧ a.amount = amt ∧ a.itemId = iid := by
  intro pids
  induction pids with
  | nil => intro i a ha; simp [mkAsgs] at ha
  | cons pid rest ih =>
    intro i a ha
    rw [mkAsgs] at ha
    rcases List.mem_cons.mp ha with rfl | ha'
    · exact ⟨rfl, rfl, rfl⟩
    · exact ih (i + 1) a ha'

theorem assign_loop_spec (aids : ℕ → String) (now : ℕ) (iid : String)
    (pct amt : ℚ) (item : BillItem) :
    ∀ (pids : List String) (mgr : SessionManager) (i : ℕ) (sess : Session),
      get_item mgr iid = some item →
      dget mgr.sessions item.sessionId = some sess →
      (assign_loop aids now iid pct amt mgr i pids).1 =
        mkAsgs aids iid pct amt i pids ∧
      dget (assign_loop aids now iid pct amt mgr i pids).2.sessions item.sessionId =
        some { sess with
               assignments := sess.assignments ++ mkAsgs aids iid pct amt i pids,
               updatedAt := if pids = [] then sess.updatedAt else now } := by
  intro pids
  induction pids with
  | nil =>
    intro mgr i sess h1 h2
    refine ⟨rfl, ?_⟩
    simpa [assign_loop, mkAsgs] using h2
  | cons pid rest ih =>
    intro mgr i sess h1 h2
    have hadd : add_assignment mgr (aids i) now ⟨iid, pid, pct, amt⟩ =
        (some (mkAsg (aids i) ⟨iid, pid, pct, amt⟩),
         add_assignment_touched mgr item.sessionId
           (mkAsg (aids i) ⟨iid, pid, pct, amt⟩) now) := by
      simp only [add_assignment, h1, h2]
    have h1' : get_item (add_assignment_touched mgr item.sessionId
        (mkAsg (aids i) ⟨iid, pid, pct, amt⟩) now) iid = some item := by
      rw [get_item_touched]
      exact h1
    have h2' : dget (add_assignment_touched mgr item.sessionId
        (mkAsg (aids i) ⟨iid, pid, pct, amt⟩) now).sessions item.sessionId =
        some (appendAsg (mkAsg (aids i) ⟨iid, pid, pct, amt⟩) now sess) :=
      dget_dmodify_self _ _ _ _ h2
    obtain ⟨ihl, ihd⟩ := ih
      (add_assignment_touched mgr item.sessionId
        (mkAsg (aids i) ⟨iid, pid, pct, amt⟩) now)
      (i + 1)
      (appendAsg (mkAsg (aids i) ⟨iid, pid, pct, amt⟩) now sess)
      h1' h2'
    rw [assign_loop, hadd]
    dsimp only
    refine ⟨?_, ?_⟩
    · rw [ihl, mkAsgs]
      rfl
    · rw [ihd]
      rcases rest with _ | ⟨pid2, rest2⟩ <;>
        simp [mkAsgs, mkAsg, appendAsg, List.append_assoc]

/-- C1: for an item that exists (and whose `sessionId` resolves, as holds for
every item a live session owns) and a non-empty participant list,
`assign_item` returns ok with exactly one assignment per listed participant
id, each carrying `splitPercentage = 1/N` when `splitEqually` is true and
`1.0` otherwise, each with `amount = (price * quantity) * splitPercentage`,
and appends exactly those records to the owning session. -/
theorem assign_item_split_engine (mgr : SessionManager) (aids : ℕ → String)
    (now : ℕ) (req : AssignItemRequest) (item : BillItem) (sess : Session)
    (hitem : get_item mgr req.itemId = some item)
    (hsess : dget mgr.sessions item.sessionId = some sess)
    (hne : req.participantIds ≠ []) :
    (assign_item mgr aids now req).1 =
      Except.ok (mkAsgs aids req.itemId
        (if req.splitEqually then 1 / (req.participantIds.length : ℚ) else 1)
        (item.price * (item.quantity : ℚ) *
          (if req.splitEqually then 1 / (req.participantIds.length : ℚ) else 1))
        0 req.participantIds) ∧
    dget (assign_item mgr aids now req).2.sessions item.sessionId =
      some { sess with
             assignments := sess.assignments ++ mkAsgs aids req.itemId
               (if req.splitEqually then 1 / (req.participantIds.length : ℚ) else 1)
               (item.price * (item.quantity : ℚ) *
                 (if req.splitEqually then 1 / (req.participantIds.length : ℚ) else 1))
               0 req.participantIds,
             updatedAt := now } ∧
    (mkAsgs aids req.itemId
        (if req.splitEqually then 1 / (req.participantIds.length : ℚ) else 1)
        (item.price * (item.quantity : ℚ) *
          (if req.splitEqually then 1 / (req.participantIds.length : ℚ) else 1))
        0 req.participantIds).length = req.participantIds.length ∧
    (mkAsgs aids req.itemId
        (if req.splitEqually then 1 / (req.participantIds.length : ℚ) else 1)
        (item.price * (item.quantity : ℚ) *
          (if req.splitEqually then 1 / (req.participantIds.length : ℚ) else 1))
        0 req.participantIds).map ItemAssignment.participantId =
      req.participantIds ∧
    ∀ a ∈ mkAsgs aids req.itemId
        (if req.splitEqually then 1 / (req.participantIds.length : ℚ) else 1)
        (item.price * (item.quantity : ℚ) *
          (if req.splitEqually then 1 / (req.participantIds.length : ℚ) else 1))
        0 req.participantIds,
      a.splitPercentage =
        (if req.splitEqually then 1 / (req.participantIds.length : ℚ) else 1) ∧
      a.amount = item.price * (item.quantity : ℚ) *
        (if req.splitEqually then 1 / (req.participantIds.length : ℚ) else 1) := by
  have hlen : req.participantIds.length ≠ 0 := by
    simpa [List.length_eq_zero] using hne
  obtain ⟨hl, hd⟩ := assign_loop_spec aids now req.itemId
    (if req.splitEqually then 1 / (req.participantIds.length : ℚ) else 1)
    (item.price * (item.quantity : ℚ) *
      (if req.splitEqually then 1 / (req.participantIds.length : ℚ) else 1))
    item req.participantIds mgr 0 sess hitem hsess
  refine ⟨?_, ?_, ?_, ?_, ?_⟩
  · simp only [assign_item, hitem, if_neg hlen]
    rw [hl]
  · simp only [assign_item, hitem, if_neg hlen]
    rw [hd, if_neg hne]
  · exact mkAsgs_length _ _ _ _ _ _
  · exact mkAsgs_map_participant _ _ _ _ _ _
  · intro a ha
    obtain ⟨hp, hamt, _⟩ := mkAsgs_fields _ _ _ _ _ _ a ha
    exact ⟨hp, hamt⟩

/-- Witness for `assign_item_split_engine`: the $10 × 2 item split equally
among three participants yields three records with `splitPercentage = 1/3`
and `amount = 20/3`. -/
theorem assign_item_split_engine_witness :
    (assign_item sampleMgr (fun _ => "a") 9 ⟨"i1", ["p1", "p2", "p3"], true⟩).1 =
      Except.ok [⟨"a", "i1", "p1", 1/3, 20/3⟩, ⟨"a", "i1", "p2", 1/3, 20/3⟩,
                 ⟨"a", "i1", "p3", 1/3, 20/3⟩] := by
  rw [(assign_item_split_engine sampleMgr (fun _ => "a") 9
    ⟨"i1", ["p1", "p2", "p3"], true⟩ sampleItem sampleSession rfl rfl (by decide)).1]
  norm_num [mkAsgs, sampleItem]

theorem forall2_keyCode_refl (l : List (String × Session)) :
    List.Forall₂ keyCodeRel l l := by
  induction l with
  | nil => exact List.Forall₂.nil
  | cons e rest ih => exact List.Forall₂.cons ⟨rfl, rfl⟩ ih

theorem forall2_keyCode_map_fst (l l' : List (String × Session))
    (h : List.Forall₂ keyCodeRel l l') : l'.map Prod.fst = l.map Prod.fst := by
  induction h with
  | nil => rfl
  | cons hr hrest ih => simp [hr.1, ih]

theorem forall2_keyCode_dget_isSome (l l' : List (String × Session))
    (h : List.Forall₂ keyCodeRel l l') (k : String) :
    (dget l' k).isSome = (dget l k).isSome := by
  induction h with
  | nil => rfl
  | cons hr hrest ih =>
    rename_i a b l1 l2
    rcases a with ⟨k1, s1⟩
    rcases b with ⟨k2, s2⟩
    have e1 : k2 = k1 := hr.1
    by_cases hk : k1 = k
    · simp [dget, e1, hk]
    · simp [dget, e1, hk, ih]

theorem forall2_keyCode_mem_right (l l' : List (String × Session))
    (h : List.Forall₂ keyCodeRel l l') (e' : String × Session) (he : e' ∈ l') :
    ∃ e ∈ l, keyCodeRel e e' := by
  induction h with
  | nil => simp at he
  | cons hr hrest ih =>
    rcases List.mem_cons.mp he with rfl | he2
    · exact ⟨_, List.mem_cons_self _ _, hr⟩
    · obtain ⟨e, hel, hrel⟩ := ih he2
      exact ⟨e, List.mem_cons_of_mem _ hel, hrel⟩

theorem dmodify_keyCode (l : List (String × Session)) (k : String)
    (f : Session → Session) (s : Session) (hget : dget l k = some s)
    (hf : (f s).sessionCode = s.sessionCode) :
    List.Forall₂ keyCodeRel l (dmodify l k f) := by
  induction l with
  | nil => exact List.Forall₂.nil
  | cons e rest ih =>
    rcases e with ⟨k1, s1⟩
    by_cases h1 : k1 = k
    · simp only [dget, h1, if_pos rfl] at hget
      injection hget with hs
      subst hs
      simp only [dmodify, if_pos h1]
      exact List.Forall₂.cons ⟨rfl, hf⟩ (forall2_keyCode_refl rest)
    · simp only [dget, if_neg h1] at hget
      simp only [dmodify, if_neg h1]
      exact List.Forall₂.cons ⟨rfl, rfl⟩ (ih hget)

theorem modifyFirst_keyCode (l : List (String × Session)) {α : Type}
    (f : Session → Option (α × Session))
    (hf : ∀ s a s', f s = some (a, s') → s'.sessionCode = s.sessionCode) :
    List.Forall₂ keyCodeRel l (modifyFirst l f).2 := by
  induction l with
  | nil => exact List.Forall₂.nil
  | cons e rest ih =>
    rcases e with ⟨k1, s1⟩
    cases hfs : f s1 with
    | some pr =>
      rcases pr with ⟨a, s'⟩
      simp only [modifyFirst, hfs]
      exact List.Forall₂.cons ⟨rfl, hf s1 a s' hfs⟩ (forall2_keyCode_refl rest)
    | none =>
      simp only [modifyFirst, hfs]
      exact List.Forall₂.cons ⟨rfl, rfl⟩ ih

theorem inv_framed (s0 code : String) (m m' : SessionManager)
    (hbc : m'.sessions_by_code = m.sessions_by_code)
    (hrel : List.Forall₂ keyCodeRel m.sessions m'.sessions)
    (hinv : TrackInv s0 code m) : TrackInv s0 code m' := by
  obtain ⟨h1, h2, h3, h4, h5⟩ := hinv
  refine ⟨hbc ▸ h1, ?_, ?_, ?_, hbc ▸ h5⟩
  · rw [forall2_keyCode_dget_isSome _ _ hrel]
    exact h2
  · intro e' he' hne
    obtain ⟨e, hel, hk, hc⟩ := forall2_keyCode_mem_right _ _ hrel e' he'
    rw [hc]
    exact h3 e hel (hk ▸ hne)
  · rw [forall2_keyCode_map_fst _ _ hrel]
    exact h4

theorem mem_dset {α : Type} (l : List (String × α)) (k : String) (v : α) :
    ∀ e ∈ dset l k v, e ∈ l ∨ e = (k, v) := by
  induction l with
  | nil =>
    intro e he
    simp only [dset, List.mem_singleton] at he
    right; exact he
  | cons e0 rest ih =>
    intro e he
    rcases e0 with ⟨k1, v1⟩
    by_cases h1 : k1 = k
    · simp only [dset, if_pos h1] at he
      rcases List.mem_cons.mp he with rfl | he2
      · right; rfl
      · left; exact List.mem_cons_of_mem _ he2
    · simp only [dset, if_neg h1] at he
      rcases List.mem_cons.mp he with rfl | he2
      · left; exact List.mem_cons_self _ _
      · rcases ih e he2 with h | h
        · left; exact List.mem_cons_of_mem _ h
        · right; exact h

theorem mem_map_fst_dset {α : Type} (l : List (String × α)) (k : String) (v : α)
    (x : String) (h : x ∈ (dset l k v).map Prod.fst) :
    x ∈ l.map Prod.fst ∨ x = k := by
  obtain ⟨e, he, rfl⟩ := List.mem_map.mp h
  rcases mem_dset l k v e he with h2 | rfl
  · left; exact List.mem_map.mpr ⟨e, h2, rfl⟩
  · right; rfl

theorem dset_map_fst_nodup {α : Type} (l : List (String × α)) (k : String) (v : α)
    (h : (l.map Prod.fst).Nodup) : ((dset l k v).map Prod.fst).Nodup := by
  induction l with
  | nil => simp [dset]
  | cons e rest ih =>
    rcases e with ⟨k1, v1⟩
    simp only [List.map_cons, List.nodup_cons] at h
    by_cases h1 : k1 = k
    · simp only [dset, if_pos h1, List.map_cons, List.nodup_cons]
      exact ⟨h1 ▸ h.1, h.2⟩
    · simp only [dset, if_neg h1, List.map_cons, List.nodup_cons]
      refine ⟨?_, ih h.2⟩
      intro hx
      rcases mem_map_fst_dset rest k v k1 hx with h2 | h2
      · exact h.1 h2
      · exact h1 h2

theorem derase_sublist {α : Type} (l : List (String × α)) (k : String) :
    List.Sublist (derase l k) l := by
  induction l with
  | nil => simp [derase]
  | cons e rest ih =>
    by_cases h1 : e.1 = k
    · simp only [derase, if_pos h1]
      exact List.sublist_cons_self e rest
    · simp only [derase, if_neg h1]
      exact ih.cons₂ e

theorem foldl_supd_code (us : List SUpd) (h : ∀ u ∈ us, u.isCodeUpd = false) :
    ∀ s : Session, (us.foldl apply_supd s).sessionCode = s.sessionCode := by
  induction us with
  | nil => intro s; rfl
  | cons u rest ih =>
    intro s
    rw [List.foldl_cons, ih (fun u' hu' => h u' (List.mem_cons_of_mem _ hu'))]
    have hu := h u (List.mem_cons_self _ _)
    cases u <;> first
      | rfl
      | simp [SUpd.isCodeUpd] at hu

theorem inv_add_participant (s0 code sid pid : String) (now : ℕ)
    (d : ParticipantCreate) (mgr : SessionManager)
    (hinv : TrackInv s0 code mgr) :
    TrackInv s0 code (add_participant mgr sid pid now d).2 := by
  cases hget : dget mgr.sessions sid with
  | none => simpa [add_participant, hget] using hinv
  | some s =>
    simp only [add_participant, hget]
    exact inv_framed s0 code mgr _ rfl (dmodify_keyCode _ _ _ s hget rfl) hinv

theorem inv_add_item (s0 code sid iid : String) (now : ℕ)
    (d : BillItemCreate) (mgr : SessionManager)
    (hinv : TrackInv s0 code mgr) :
    TrackInv s0 code (add_item mgr sid iid now d).2 := by
  cases hget : dget mgr.sessions sid with
  | none => simpa [add_item, hget] using hinv
  | some s =>
    simp only [add_item, hget]
    exact inv_framed s0 code mgr _ rfl (dmodify_keyCode _ _ _ s hget rfl) hinv

theorem inv_update_session (s0 code sid : String) (us : List SUpd) (now : ℕ)
    (mgr : SessionManager) (hus : ∀ u ∈ us, u.isCodeUpd = false)
    (hinv : TrackInv s0 code mgr) :
    TrackInv s0 code (update_session mgr sid us now).2 := by
  cases hget : dget mgr.sessions sid with
  | none => simpa [update_session, hget] using hinv
  | some s =>
    simp only [update_session, hget]
    exact inv_framed s0 code mgr _ rfl
      (dmodify_keyCode _ _ _ s hget (foldl_supd_code us hus s)) hinv

theorem inv_update_participant (s0 code pid : String) (us : List PUpd) (now : ℕ)
    (mgr : SessionManager) (hinv : TrackInv s0 code mgr) :
    TrackInv s0 code (update_participant mgr pid us now).2 := by
  refine inv_framed s0 code mgr _ rfl (modifyFirst_keyCode _ _ ?_) hinv
  intro s a s' hfs
  cases hu : (updFirst (fun p => p.id = pid) (fun p => us.foldl apply_pupd p)
      s.participants).1 with
  | some p' =>
    simp only [hu] at hfs
    injection hfs with hpair
    cases hpair
    rfl
  | none =>
    simp [hu] at hfs

theorem inv_update_item (s0 code iid : String) (us : List IUpd) (now : ℕ)
    (mgr : SessionManager) (hinv : TrackInv s0 code mgr) :
    TrackInv s0 code (update_item mgr iid us now).2 := by
  refine inv_framed s0 code mgr _ rfl (modifyFirst_keyCode _ _ ?_) hinv
  intro s a s' hfs
  cases hu : (updFirst (fun it => it.id = iid) (fun it => us.foldl apply_iupd it)
      s.items).1 with
  | some it' =>
    simp only [hu] at hfs
    injection hfs with hpair
    cases hpair
    rfl
  | none =>
    simp [hu] at hfs

theorem inv_delete_item (s0 code iid : String) (now : ℕ)
    (mgr : SessionManager) (hinv : TrackInv s0 code mgr) :
    TrackInv s0 code (delete_item mgr iid now).2 := by
  refine inv_framed s0 code mgr _ rfl (modifyFirst_keyCode _ _ ?_) hinv
  intro s a s' hfs
  cases hu : (delFirst (fun it => it.id = iid) s.items).1 with
  | true =>
    simp only [hu, if_true] at hfs
    injection hfs with hpair
    cases hpair
    rfl
  | false =>
    simp [hu] at hfs

theorem inv_delete_assignment (s0 code aid : String) (now : ℕ)
    (mgr : SessionManager) (hinv : TrackInv s0 code mgr) :
    TrackInv s0 code (delete_assignment mgr aid now).2 := by
  refine inv_framed s0 code mgr _ rfl (modifyFirst_keyCode _ _ ?_) hinv
  intro s a s' hfs
  cases hu : (delFirst (fun x => x.id = aid) s.assignments).1 with
  | true =>
    simp only [hu, if_true] at hfs
    injection hfs with hpair
    cases hpair
    rfl
  | false =>
    simp [hu] at hfs

theorem inv_update_assignment_route (s0 code aid : String) (us : List AUpd)
    (mgr : SessionManager) (hinv : TrackInv s0 code mgr) :
    TrackInv s0 code (update_assignment_route mgr aid us).2 := by
  refine inv_framed s0 code mgr _ rfl (modifyFirst_keyCode _ _ ?_) hinv
  intro s a s' hfs
  cases hu : (updFirst (fun x => x.id = aid) (fun x => us.foldl apply_aupd x)
      s.assignments).1 with
  | some a' =>
    simp only [hu] at hfs
    injection hfs with hpair
    cases hpair
    rfl
  | none =>
    simp [hu] at hfs

theorem inv_add_assignment (s0 code aid : String) (now : ℕ)
    (d : ItemAssignmentCreate) (mgr : SessionManager)
    (hinv : TrackInv s0 code mgr) :
    TrackInv s0 code (add_assignment mgr aid now d).2 := by
  cases hg : get_item mgr d.itemId with
  | none => simpa [add_assignment, hg] using hinv
  | some item =>
    cases hs : dget mgr.sessions item.sessionId with
    | none => simpa [add_assignment, hg, hs] using hinv
    | some s =>
      simp only [add_assignment, hg, hs]
      exact inv_framed s0 code mgr _ rfl (dmodify_keyCode _ _ _ s hs rfl) hinv

theorem create_session_parts (mgr : SessionManager) (sid : String)
    (cands : List String) (now : ℕ) (d : SessionCreate) (s : Session)
    (mgr' : SessionManager) (h : create_session mgr sid cands now d = some (s, mgr')) :
    dget mgr.sessions_by_code s.sessionCode = none ∧
    mgr'.sessions = dset mgr.sessions sid s ∧
    mgr'.sessions_by_code = dset mgr.sessions_by_code s.sessionCode sid := by
  cases hg : _generate_session_code mgr cands with
  | none => simp [create_session, hg] at h
  | some cd =>
    simp only [create_session, hg] at h
    cases h
    obtain ⟨hmem, hnone⟩ := generate_code_spec mgr cands cd hg
    exact ⟨hnone, rfl, rfl⟩

theorem inv_screate (s0 code sid : String) (cands : List String) (now : ℕ)
    (d : SessionCreate) (mgr : SessionManager) (hne : sid ≠ s0)
    (hinv : TrackInv s0 code mgr) :
    TrackInv s0 code (stepRun mgr (.screate sid cands now d)) := by
  cases hc : create_session mgr sid cands now d with
  | none => simpa [stepRun, hc] using hinv
  | some pr =>
    rcases pr with ⟨s1, m1⟩
    obtain ⟨hfresh, hsess, hbc⟩ := create_session_parts mgr sid cands now d s1 m1 hc
    obtain ⟨h1, h2, h3, h4, h5⟩ := hinv
    have hcodene : s1.sessionCode ≠ code := by
      intro he
      rw [he, h1] at hfresh
      cases hfresh
    simp only [stepRun, hc]
    refine ⟨?_, ?_, ?_, ?_, ?_⟩
    · rw [hbc, dget_dset_ne _ _ _ _ (Ne.symm hcodene)]
      exact h1
    · rw [hsess, dget_dset_ne _ _ _ _ (Ne.symm hne)]
      exact h2
    · intro e he hmem
      rw [hsess] at he
      rcases mem_dset _ _ _ e he with h | rfl
      · exact h3 e h hmem
      · exact hcodene
    · rw [hsess]
      exact dset_map_fst_nodup _ _ _ h4
    · rw [hbc]
      exact dset_map_fst_nodup _ _ _ h5

theorem inv_sdelete (s0 code sid : String) (mgr : SessionManager)
    (hne : sid ≠ s0) (hinv : TrackInv s0 code mgr) :
    TrackInv s0 code (stepRun mgr (.sdelete sid)) := by
  obtain ⟨h1, h2, h3, h4, h5⟩ := hinv
  cases hget : dget mgr.sessions sid with
  | none =>
    simpa [stepRun, delete_session, hget] using And.intro h1 ⟨h2, h3, h4, h5⟩
  | some t =>
    have htmem : (sid, t) ∈ mgr.sessions := dget_mem _ _ _ hget
    have htcode : t.sessionCode ≠ code := h3 (sid, t) htmem hne
    have hsess2 : (dget (derase mgr.sessions sid) s0).isSome = true := by
      rw [dget_derase_ne _ _ _ (Ne.symm hne)]
      exact h2
    have hmem2 : ∀ e ∈ derase mgr.sessions sid, e.1 ≠ s0 → e.2.sessionCode ≠ code :=
      fun e he => h3 e ((derase_sublist mgr.sessions sid).subset he)
    have hnd2 : ((derase mgr.sessions sid).map Prod.fst).Nodup :=
      h4.sublist ((derase_sublist mgr.sessions sid).map Prod.fst)
    cases hdel : ddel mgr.sessions_by_code t.sessionCode with
    | none =>
      simp only [stepRun, delete_session, hget, hdel]
      exact ⟨h1, hsess2, hmem2, hnd2, h5⟩
    | some bc' =>
      have hbc' : bc' = derase mgr.sessions_by_code t.sessionCode := by
        by_cases hh : (dget mgr.sessions_by_code t.sessionCode).isSome
        · simp only [ddel, if_pos hh] at hdel
          injection hdel with h
          exact h.symm
        · simp only [ddel, if_neg hh] at hdel
          exact Option.noConfusion hdel
      simp only [stepRun, delete_session, hget, hdel]
      refine ⟨?_, hsess2, hmem2, hnd2, ?_⟩
      · rw [hbc', dget_derase_ne _ _ _ (Ne.symm htcode)]
        exact h1
      · rw [hbc']
        exact h5.sublist ((derase_sublist mgr.sessions_by_code t.sessionCode).map Prod.fst)

theorem inv_step (s0 code : String) (mgr : SessionManager) (st : Step)
    (hok : stepOK s0 st = true) (hinv : TrackInv s0 code mgr) :
    TrackInv s0 code (stepRun mgr st) := by
  cases st with
  | screate sid cands now d =>
    have hne : sid ≠ s0 := by
      intro h
      simp [stepOK, h] at hok
    exact inv_screate s0 code sid cands now d mgr hne hinv
  | supdate sid us now =>
    have hus : ∀ u ∈ us, u.isCodeUpd = false := by
      simp only [stepOK, List.all_eq_true, decide_eq_true_eq] at hok
      exact hok
    exact inv_update_session s0 code sid us now mgr hus hinv
  | sdelete sid =>
    have hne : sid ≠ s0 := by
      intro h
      simp [stepOK, h] at hok
    exact inv_sdelete s0 code sid mgr hne hinv
  | paddNew sid pid now d => exact inv_add_participant s0 code sid pid now d mgr hinv
  | pupdate pid us now => exact inv_update_participant s0 code pid us now mgr hinv
  | iaddNew sid iid now d => exact inv_add_item s0 code sid iid now d mgr hinv
  | iupdate iid us now => exact inv_update_item s0 code iid us now mgr hinv
  | idelete iid now => exact inv_delete_item s0 code iid now mgr hinv
  | aaddNew aid now d => exact inv_add_assignment s0 code aid now d mgr hinv
  | aupdate aid us => exact inv_update_assignment_route s0 code aid us mgr hinv
  | adelete aid now => exact inv_delete_assignment s0 code aid now mgr hinv

theorem inv_run (s0 code : String) (steps : List Step) :
    ∀ mgr : SessionManager, (∀ st ∈ steps, stepOK s0 st = true) →
      TrackInv s0 code mgr → TrackInv s0 code (run mgr steps) := by
  induction steps with
  | nil => intro mgr _ hinv; exact hinv
  | cons st rest ih =>
    intro mgr hok hinv
    exact ih (stepRun mgr st)
      (fun st' hst' => hok st' (List.mem_cons_of_mem _ hst'))
      (inv_step s0 code mgr st (hok st (List.mem_cons_self _ _)) hinv)

theorem inv_after_create (mgr0 : SessionManager) (sid : String)
    (cands : List String) (now : ℕ) (d : SessionCreate) (s : Session)
    (mgr1 : SessionManager)
    (hnd1 : (mgr0.sessions.map Prod.fst).Nodup)
    (hnd2 : (mgr0.sessions_by_code.map Prod.fst).Nodup)
    (hcodes : ∀ e ∈ mgr0.sessions,
      (dget mgr0.sessions_by_code e.2.sessionCode).isSome = true)
    (hc : create_session mgr0 sid cands now d = some (s, mgr1)) :
    TrackInv sid s.sessionCode mgr1 := by
  obtain ⟨hfresh, hsess, hbc⟩ := create_session_parts mgr0 sid cands now d s mgr1 hc
  refine ⟨?_, ?_, ?_, ?_, ?_⟩
  · rw [hbc, dget_dset_self]
  · rw [hsess, dget_dset_self]
    rfl
  · intro e he hne
    rw [hsess] at he
    rcases mem_dset _ _ _ e he with h | rfl
    · intro heq
      have := hcodes e h
      rw [heq, hfresh] at this
      cases this
    · exact absurd rfl hne
  · rw [hsess]
    exact dset_map_fst_nodup _ _ _ hnd1
  · rw [hbc]
    exact dset_map_fst_nodup _ _ _ hnd2

/-- C7 (amended): a created, never-deleted session is found by any casing of
its code after any sequence of store operations, provided no operation
patched a `sessionCode` attribute and no fresh session id collides with its
id; the lookup returns exactly the session stored under the created id. -/
theorem code_lookup_survives_steps (mgr0 : SessionManager) (sid : String)
    (cands : List String) (now : ℕ) (d : SessionCreate) (s : Session)
    (mgr1 : SessionManager) (steps : List Step)
    (hsid : sid ≠ "")
    (hnd1 : (mgr0.sessions.map Prod.fst).Nodup)
    (hnd2 : (mgr0.sessions_by_code.map Prod.fst).Nodup)
    (hcodes : ∀ e ∈ mgr0.sessions,
      (dget mgr0.sessions_by_code e.2.sessionCode).isSome = true)
    (hc : create_session mgr0 sid cands now d = some (s, mgr1))
    (hsteps : ∀ st ∈ steps, stepOK sid st = true)
    (arg : String) (harg : pyUpper arg = s.sessionCode) :
    get_session_by_code_route (run mgr1 steps) arg =
      dget (run mgr1 steps).sessions sid ∧
    (dget (run mgr1 steps).sessions sid).isSome = true := by
  obtain ⟨h1, h2, h3, h4, h5⟩ := inv_run sid s.sessionCode steps mgr1 hsteps
    (inv_after_create mgr0 sid cands now d s mgr1 hnd1 hnd2 hcodes hc)
  refine ⟨?_, h2⟩
  rw [get_session_by_code_route, harg, get_session_by_code, h1]
  simp [hsid]

/-- Witness for `code_lookup_survives_steps`: after creating `s1` (code
`AAAAAA`), creating and deleting another session, adding a participant and an
item, and a code-free field update, the lower-case argument `"aaaaaa"` still
finds the session stored under `"s1"`. -/
theorem code_lookup_survives_steps_witness :
    get_session_by_code_route (run wMgr1 wSteps) "aaaaaa" =
      dget (run wMgr1 wSteps).sessions "s1" ∧
    (dget (run wMgr1 wSteps).sessions "s1").isSome = true :=
  code_lookup_survives_steps emptyMgr "s1" ["AAAAAA"] 0 wData wSess wMgr1 wSteps
    (by decide) (by decide) (by decide) (by decide) rfl (by decide) "aaaaaa"
    (by decide)

/-- C7 counterexample: session `s1` is created with code `AAAAAA` and never
deleted — its stored `sessionCode` is still `AAAAAA` at the end — yet looking
it up by that code returns nothing: an interleaved `update_session` patched
another session's `sessionCode` attribute to `AAAAAA`, and deleting that other
session removed `AAAAAA` from the stale code index. -/
theorem code_lookup_broken_by_code_update :
    ((dget cex7m1.sessions "s1").map Session.sessionCode = some "AAAAAA") ∧
    ((dget cex7final.sessions "s1").map Session.sessionCode = some "AAAAAA") ∧
    ((dget cex7final.sessions "s1").isSome = true) ∧
    get_session_by_code_route cex7final "AAAAAA" = none := by
  refine ⟨rfl, rfl, rfl, by decide⟩
